import Mathlib

/-!
Verification development for the chess session/move-reconciliation backend
(`backendrunner.py`, class `ChessBrain`).

Strings are embedded as lists of characters (`Str`).  The external rules
capability (python-chess board: legality test, move application, checkmate
test, per-square occupancy) and the external engine (Stockfish best-move
query) are opaque collaborators, modelled as a `Rules` structure and an
`engine : B → Option Str` function over an abstract board type `B`.
Everything else — the snapshot parser, the move inferencer, the drastic
change guard, and the request processing flow — is translated directly
from the source.
-/

/-- Character list standing for a Python string. -/
abbrev Str := List Char

/-- Whitespace characters recognised by Python `str.strip()` / `str.split()`
(ASCII subset: space, tab, newline, carriage return, vertical tab, form feed). -/
def isWsChar (c : Char) : Bool :=
  decide (c = ' ') || decide (c = '\t') || decide (c = '\n') || decide (c = '\r') ||
  decide (c = Char.ofNat 11) || decide (c = Char.ofNat 12)

/-- Python `str.strip()`. -/
def stripStr (s : Str) : Str :=
  ((s.dropWhile isWsChar).reverse.dropWhile isWsChar).reverse

/-- ASCII lower-casing of one character, as Python `str.lower()` does on ASCII. -/
def lowerChar (c : Char) : Char :=
  if 'A' ≤ c ∧ c ≤ 'Z' then Char.ofNat (c.toNat + 32) else c

/-- Python `str.lower()`. -/
def toLowerStr (s : Str) : Str := s.map lowerChar

/-- Splitting on every character satisfying `p`, keeping empty pieces.
`splitOnPred (· = sep) s` is Python `s.split(sep)` for a one-character
separator. -/
def splitOnPred (p : Char → Bool) : Str → List Str
  | [] => [[]]
  | c :: rest =>
    if p c then [] :: splitOnPred p rest
    else
      match splitOnPred p rest with
      | [] => [[c]]
      | t :: ts => (c :: t) :: ts

/-- Python `str.split()` (no separator): split on whitespace, dropping empty
pieces. -/
def splitWs (s : Str) : List Str :=
  (splitOnPred isWsChar s).filter (fun t => decide (t ≠ []))

/-- Python `str.startswith(pat)`. -/
def startsWithStr (s pat : Str) : Bool :=
  match s, pat with
  | _, [] => true
  | [], _ :: _ => false
  | c :: cs, p :: ps => decide (c = p) && startsWithStr cs ps

/-- Lexicographic comparison of strings by character code, the order used by
Python when sorting lists of strings. -/
def strLe : Str → Str → Bool
  | [], _ => true
  | _ :: _, [] => false
  | a :: as, b :: bs =>
    decide (a.toNat < b.toNat) || (decide (a.toNat = b.toNat) && strLe as bs)

/-- Insert a string into a `strLe`-sorted list, keeping it sorted. -/
def insertSorted (x : Str) : List Str → List Str
  | [] => [x]
  | y :: ys => if strLe x y then x :: y :: ys else y :: insertSorted x ys

/-- Python `sorted(...)` on a list of strings.  Since `strLe` is a total
antisymmetric order, the sorted arrangement of a list is unique, so any
correct sorting algorithm models `sorted`. -/
def sortStrs (l : List Str) : List Str := l.foldr insertSorted []

/-- Adjacent-pairs sortedness check with respect to `strLe`. -/
def isSortedStr : List Str → Bool
  | [] => true
  | [_] => true
  | a :: b :: rest => strLe a b && isSortedStr (b :: rest)

/-- Board file letters, from `_is_uci_move` and `_parse_positions`. -/
def isFileChar (c : Char) : Bool := decide (c ∈ "abcdefgh".data)

/-- Board rank digits, from `_is_uci_move` and `_parse_positions`. -/
def isRankChar (c : Char) : Bool := decide (c ∈ "12345678".data)

/-- Promotion piece letters accepted by `_is_uci_move`. -/
def isPromoChar (c : Char) : Bool := decide (c ∈ "qnrb".data)

/-- The 64 legal square names, the `valid_squares` set of `_parse_positions`. -/
def validSquares : List Str :=
  "abcdefgh".data.flatMap (fun f => "12345678".data.map (fun r => [f, r]))

/-- `ChessBrain._is_uci_move`: after stripping and lowering, the text is four
characters file-rank-file-rank, optionally followed by a promotion letter. -/
def isUciMove (text : Str) : Bool :=
  match toLowerStr (stripStr text) with
  | [a, b, c, d] => isFileChar a && isRankChar b && isFileChar c && isRankChar d
  | [a, b, c, d, e] =>
      isFileChar a && isRankChar b && isFileChar c && isRankChar d && isPromoChar e
  | _ => false

/-- Occupancy snapshot: the `{"white": [...], "black": [...]}` dictionaries
built by `_parse_positions` and `_get_piece_snapshot`. -/
structure Snapshot where
  white : List Str
  black : List Str
deriving DecidableEq

/-- The squares listed after the colon of one recognised token:
`[sq.strip() for sq in squares_str.split(",") if sq.strip()]`. -/
def parseSquares (ss : Str) : List Str :=
  ((splitOnPred (fun c => decide (c = ',')) ss).map stripStr).filter
    (fun sq => decide (sq ≠ []))

/-- The element `part.split(":")[1]` when it exists, `[]` otherwise. -/
def tokenSecond (p : Str) : Str :=
  ((splitOnPred (fun c => decide (c = ':')) p)[1]?).getD []

/-- Token list examined by `_parse_positions`: strip and lower the text, then
split on `;` when present, otherwise on whitespace. -/
def tokensOf (txt : Str) : List Str :=
  let t := toLowerStr (stripStr txt)
  if ';' ∈ t then splitOnPred (fun c => decide (c = ';')) t else splitWs t

/-- One iteration of the `for part in parts` loop of `_parse_positions`.
The indexing `part.split(":")[1]` can in principle raise, which the
surrounding `try` would turn into `None`; that is the `none` branch here. -/
def stepToken (acc : List Str × List Str) (part0 : Str) :
    Option (List Str × List Str) :=
  let part := stripStr part0
  if startsWithStr part ("white:".data) = true then
    match (splitOnPred (fun c => decide (c = ':')) part)[1]? with
    | none => none
    | some ss => some (parseSquares ss, acc.2)
  else if startsWithStr part ("black:".data) = true then
    match (splitOnPred (fun c => decide (c = ':')) part)[1]? with
    | none => none
    | some ss => some (acc.1, parseSquares ss)
  else some acc

/-- The whole token loop of `_parse_positions`. -/
def runTokens (acc : List Str × List Str) : List Str → Option (List Str × List Str)
  | [] => some acc
  | t :: ts =>
    match stepToken acc t with
    | none => none
    | some acc2 => runTokens acc2 ts

/-- `ChessBrain._parse_positions`: tokenise, run the loop, validate squares
against the 64 legal coordinates, return sorted lists.  `none` models the
`except: return None` branch. -/
def parsePositions (txt : Str) : Option Snapshot :=
  match runTokens ([], []) (tokensOf txt) with
  | none => none
  | some (w, b) =>
    some { white := sortStrs (w.filter (fun sq => decide (sq ∈ validSquares)))
           black := sortStrs (b.filter (fun sq => decide (sq ∈ validSquares))) }

/-- Characterisation device: the squares contributed by the last token (in
list order) whose stripped form starts with `pre`, or `init` when no token
matches.  Mirrors the fact that each loop iteration of `_parse_positions`
overwrites the accumulator of its colour. -/
def lastTokenSquares (pre : Str) (init : List Str) : List Str → List Str
  | [] => init
  | t :: ts =>
    if startsWithStr (stripStr t) pre = true then
      lastTokenSquares pre (parseSquares (tokenSecond (stripStr t))) ts
    else lastTokenSquares pre init ts

/-- Python set difference `set(a) - set(b)` materialised as a list of the
distinct elements of `a` not in `b`. -/
def pyDiff (a b : List Str) : List Str :=
  a.dedup.filter (fun x => decide (x ∉ b))

/-- Python set equality between a computed set and a literal one. -/
def setEqL (a b : List Str) : Prop := (∀ x ∈ a, x ∈ b) ∧ (∀ x ∈ b, x ∈ a)

instance instDecidableSetEqL (a b : List Str) : Decidable (setEqL a b) := by
  unfold setEqL
  exact inferInstance

/-- `ChessBrain._is_drastic_change`. -/
def isDrasticChange (newPos : Snapshot) (currentPos : Option Snapshot) : Bool :=
  match currentPos with
  | none => false
  | some cur =>
    let whiteRemoved := pyDiff cur.white newPos.white
    let whiteAdded := pyDiff newPos.white cur.white
    let blackRemoved := pyDiff cur.black newPos.black
    let blackAdded := pyDiff newPos.black cur.black
    if whiteRemoved.length + blackRemoved.length = 1 ∧
       whiteAdded.length + blackAdded.length = 2 then true
    else
      decide ((((cur.white.length + cur.black.length : Int)) -
        ((newPos.white.length + newPos.black.length : Int))).natAbs > 2)

/-- `ChessBrain._deduce_move_from_snapshot`: castling patterns first, then
quiet moves, then captures, else no move. -/
def deduceMoveFromSnapshot (newPos currentPos : Snapshot) : Option Str :=
  let whiteRemoved := pyDiff currentPos.white newPos.white
  let whiteAdded := pyDiff newPos.white currentPos.white
  let blackRemoved := pyDiff currentPos.black newPos.black
  let blackAdded := pyDiff newPos.black currentPos.black
  if setEqL whiteRemoved ["e1".data, "h1".data] ∧
     setEqL whiteAdded ["g1".data, "f1".data] then some ("e1g1".data)
  else if setEqL whiteRemoved ["e1".data, "a1".data] ∧
     setEqL whiteAdded ["c1".data, "d1".data] then some ("e1c1".data)
  else if setEqL blackRemoved ["e8".data, "h8".data] ∧
     setEqL blackAdded ["g8".data, "f8".data] then some ("e8g8".data)
  else if setEqL blackRemoved ["e8".data, "a8".data] ∧
     setEqL blackAdded ["c8".data, "d8".data] then some ("e8c8".data)
  else if whiteRemoved.length = 1 ∧ whiteAdded.length = 1 ∧
     blackRemoved = [] ∧ blackAdded = [] then
    some (whiteRemoved.getD 0 [] ++ whiteAdded.getD 0 [])
  else if blackRemoved.length = 1 ∧ blackAdded.length = 1 ∧
     whiteRemoved = [] ∧ whiteAdded = [] then
    some (blackRemoved.getD 0 [] ++ blackAdded.getD 0 [])
  else if whiteRemoved.length = 1 ∧ whiteAdded.length = 1 ∧
     blackRemoved.length = 1 ∧ blackAdded = [] ∧
     whiteAdded.getD 0 [] ∈ blackRemoved then
    some (whiteRemoved.getD 0 [] ++ whiteAdded.getD 0 [])
  else if blackRemoved.length = 1 ∧ blackAdded.length = 1 ∧
     whiteRemoved.length = 1 ∧ whiteAdded = [] ∧
     blackAdded.getD 0 [] ∈ whiteRemoved then
    some (blackRemoved.getD 0 [] ++ blackAdded.getD 0 [])
  else none

/-- The external rules capability (the python-chess board), an opaque
collaborator: initial position, legality test for a coordinate string
(`Move.from_uci` plus membership in `legal_moves`; a string the library
refuses to parse counts as not legal), move application, checkmate test,
and per-square occupancy with colour (`piece_map`, `true` = white). -/
structure Rules (B : Type) where
  initPos : B
  moveLegal : B → Str → Bool
  push : B → Str → B
  isCheckmate : B → Bool
  pieceList : B → List (Str × Bool)

/-- The mutable state of the `ChessBrain` singleton. -/
structure ChessBrain (B : Type) where
  board : B
  appColor : Option Bool
  gameActive : Bool
  lastSnapshot : Option Snapshot
  firstMoveReceived : Bool
deriving DecidableEq

/-- `ChessBrain._get_piece_snapshot`: partition the board occupancy by colour
and sort each side. -/
def getPieceSnapshot {B : Type} (rules : Rules B) (b : B) : Snapshot :=
  let entries := rules.pieceList b
  { white := sortStrs ((entries.filter (fun e => e.2)).map Prod.fst)
    black := sortStrs ((entries.filter (fun e => !e.2)).map Prod.fst) }

/-- `ChessBrain._get_best_move`: query the engine on the current position; on
a non-empty reply that is legal, apply it (deactivating the session when it
mates) and return it, otherwise return nothing and change nothing. -/
def getBestMove {B : Type} (rules : Rules B) (engine : B → Option Str)
    (st : ChessBrain B) : ChessBrain B × Option Str :=
  match engine st.board with
  | none => (st, none)
  | some bm =>
    if bm = [] then (st, none)
    else if rules.moveLegal st.board bm = true then
      let b2 := rules.push st.board bm
      ({ st with
          board := b2
          gameActive := if rules.isCheckmate b2 = true then false else st.gameActive },
       some bm)
    else (st, none)

/-- `ChessBrain.process_move`. -/
def processMove {B : Type} (rules : Rules B) (engine : B → Option Str)
    (st : ChessBrain B) (incoming : Str) : ChessBrain B × Str :=
  if st.gameActive = false then (st, "Game Over".data)
  else if isUciMove incoming = true then
    let mv := toLowerStr (stripStr incoming)
    if rules.moveLegal st.board mv = true then
      let b2 := rules.push st.board mv
      let st2 := { st with
                    board := b2
                    lastSnapshot := some (getPieceSnapshot rules b2) }
      if rules.isCheckmate b2 = true then
        ({ st2 with gameActive := false }, [])
      else
        let res := getBestMove rules engine st2
        (res.1, (res.2).getD [])
    else (st, "Invalid".data)
  else
    match parsePositions incoming with
    | none => (st, [])
    | some positions =>
      let cur := getPieceSnapshot rules st.board
      if positions = cur then (st, [])
      else if isDrasticChange positions (some cur) = true then (st, [])
      else
        match deduceMoveFromSnapshot positions cur with
        | none => (st, [])
        | some mv =>
          if rules.moveLegal st.board mv = true then
            let b2 := rules.push st.board mv
            let st2 := { st with
                          board := b2
                          lastSnapshot := some (getPieceSnapshot rules b2) }
            if rules.isCheckmate b2 = true then
              ({ st2 with gameActive := false }, [])
            else
              let res := getBestMove rules engine st2
              (res.1, (res.2).getD [])
          else (st, [])

/-- `ChessBrain.start_game`. -/
def startGame {B : Type} (rules : Rules B) (engine : B → Option Str)
    (st : ChessBrain B) (color : Str) : ChessBrain B × Str :=
  let c := toLowerStr (stripStr color)
  if c ≠ "white".data ∧ c ≠ "black".data then (st, "Invalid".data)
  else
    let appColor := decide (c = "white".data)
    let b := rules.initPos
    let st1 : ChessBrain B :=
      { board := b
        appColor := some appColor
        gameActive := true
        lastSnapshot := some (getPieceSnapshot rules b)
        firstMoveReceived := false }
    if appColor = true then
      let res := getBestMove rules engine st1
      (res.1, match res.2 with | some m => m | none => "Game Over".data)
    else (st1, [])

/-- Concrete rules instance over `Nat` boards, used to instantiate the
hypothesised theorems at explicit inputs. -/
def rulesA : Rules Nat :=
  { initPos := 0
    moveLegal := fun b mv =>
      (decide (b = 0) && decide (mv = "e2e4".data)) ||
      (decide (b = 1) && decide (mv = "e7e5".data))
    push := fun b _ => b + 1
    isCheckmate := fun _ => false
    pieceList := fun b =>
      if b = 0 then [("a1".data, true), ("a2".data, false)] else [] }

/-- Concrete engine for the same instantiations. -/
def engineA : Nat → Option Str := fun b => if b = 1 then some ("e7e5".data) else none

/-- Concrete active session on board `0`. -/
def stA : ChessBrain Nat :=
  { board := 0
    appColor := some true
    gameActive := true
    lastSnapshot := none
    firstMoveReceived := false }

/-- Concrete inactive session. -/
def stInactive : ChessBrain Nat := { stA with gameActive := false }

/-- The number of pieces produced by splitting is one more than the number of
separator characters. -/
lemma splitOnPred_length (p : Char → Bool) :
    ∀ l : Str, (splitOnPred p l).length = l.countP p + 1 := by
  intro l
  induction l with
  | nil => rfl
  | cons c rest ih =>
    by_cases h : p c = true
    · simp [splitOnPred, h, List.countP_cons, ih]
    · cases hs : splitOnPred p rest with
      | nil => rw [hs] at ih; simp at ih
      | cons t ts =>
        rw [hs] at ih
        simp only [splitOnPred, h, if_neg, Bool.false_eq_true, ite_false, hs]
        simp [List.countP_cons, h] at ih ⊢
        omega

/-- A successful `startswith` test exposes the pattern as a literal front
segment. -/
lemma startsWithStr_eq_append :
    ∀ (pat s : Str), startsWithStr s pat = true → ∃ r, s = pat ++ r := by
  intro pat
  induction pat with
  | nil => intro s _; exact ⟨s, rfl⟩
  | cons p ps ih =>
    intro s h
    cases s with
    | nil => simp [startsWithStr] at h
    | cons c cs =>
      simp only [startsWithStr, Bool.and_eq_true, decide_eq_true_eq] at h
      obtain ⟨r, hr⟩ := ih cs h.2
      exact ⟨r, by rw [h.1, hr]; rfl⟩

/-- A string starting with a given pattern has at least as many colons. -/
lemma countP_colon_of_startsWith {pre s : Str}
    (h : startsWithStr s pre = true) :
    pre.countP (fun c => decide (c = ':')) ≤ s.countP (fun c => decide (c = ':')) := by
  obtain ⟨r, rfl⟩ := startsWithStr_eq_append pre s h
  simp [List.countP_append]

/-- When the colon-split has at least two pieces, index `1` is defined and the
exception branch of `_parse_positions` cannot fire on this token. -/
lemma tokenSecond_spec {s : Str}
    (h2 : 2 ≤ (splitOnPred (fun c => decide (c = ':')) s).length) :
    (splitOnPred (fun c => decide (c = ':')) s)[1]? = some (tokenSecond s) := by
  unfold tokenSecond
  cases hx : (splitOnPred (fun c => decide (c = ':')) s)[1]? with
  | none =>
    exfalso
    have := List.getElem?_eq_none_iff.mp hx
    omega
  | some v => simp

/-- Tokens recognised as `white:`-shaped contain a colon, so their split has
at least two pieces. -/
lemma split_len_of_white {s : Str}
    (h : startsWithStr s ("white:".data) = true) :
    2 ≤ (splitOnPred (fun c => decide (c = ':')) s).length := by
  rw [splitOnPred_length]
  have hle := countP_colon_of_startsWith h
  have hone : ("white:".data).countP (fun c => decide (c = ':')) = 1 := by decide
  omega

/-- Tokens recognised as `black:`-shaped contain a colon, so their split has
at least two pieces. -/
lemma split_len_of_black {s : Str}
    (h : startsWithStr s ("black:".data) = true) :
    2 ≤ (splitOnPred (fun c => decide (c = ':')) s).length := by
  rw [splitOnPred_length]
  have hle := countP_colon_of_startsWith h
  have hone : ("black:".data).countP (fun c => decide (c = ':')) = 1 := by decide
  omega

/-- A token cannot start with both colour markers. -/
lemma black_false_of_white {s : Str}
    (h : startsWithStr s ("white:".data) = true) :
    startsWithStr s ("black:".data) = false := by
  obtain ⟨r, rfl⟩ := startsWithStr_eq_append _ _ h
  rfl

/-- A token cannot start with both colour markers. -/
lemma white_false_of_black {s : Str}
    (h : startsWithStr s ("black:".data) = true) :
    startsWithStr s ("white:".data) = false := by
  obtain ⟨r, rfl⟩ := startsWithStr_eq_append _ _ h
  rfl

/-- The token loop never fails, and each colour accumulator ends up holding
exactly the squares of the last token of that colour (later tokens of a
colour overwrite earlier ones). -/
lemma runTokens_characterization :
    ∀ (ts : List Str) (w0 b0 : List Str),
      runTokens (w0, b0) ts =
        some (lastTokenSquares ("white:".data) w0 ts,
              lastTokenSquares ("black:".data) b0 ts) := by
  intro ts
  induction ts with
  | nil => intro w0 b0; rfl
  | cons t ts ih =>
    intro w0 b0
    by_cases hw : startsWithStr (stripStr t) ("white:".data) = true
    · have hb := black_false_of_white hw
      have hsp := tokenSecond_spec (split_len_of_white hw)
      simp only [runTokens, stepToken, hw, if_pos, hsp, hb, lastTokenSquares,
        Bool.false_eq_true, ite_false, ite_true]
      exact ih _ _
    · by_cases hb : startsWithStr (stripStr t) ("black:".data) = true
      · have hsp := tokenSecond_spec (split_len_of_black hb)
        simp only [runTokens, stepToken, hw, hb, hsp, lastTokenSquares,
          Bool.false_eq_true, ite_false, ite_true]
        exact ih _ _
      · simp only [runTokens, stepToken, hw, hb, lastTokenSquares,
          Bool.false_eq_true, ite_false]
        exact ih _ _

/-- Closed form of the parser: it always succeeds, each colour's list is the
valid-square filter of the last matching token's squares, sorted. -/
lemma parsePositions_characterization (txt : Str) :
    parsePositions txt = some
      { white := sortStrs ((lastTokenSquares ("white:".data) [] (tokensOf txt)).filter
          (fun sq => decide (sq ∈ validSquares)))
        black := sortStrs ((lastTokenSquares ("black:".data) [] (tokensOf txt)).filter
          (fun sq => decide (sq ∈ validSquares))) } := by
  unfold parsePositions
  rw [runTokens_characterization]

/-- When no token of the list matches the marker, the accumulator survives. -/
lemma lastTokenSquares_eq_init {pre : Str} {init : List Str} :
    ∀ ts : List Str, (∀ t ∈ ts, startsWithStr (stripStr t) pre = false) →
      lastTokenSquares pre init ts = init := by
  intro ts
  induction ts with
  | nil => intro _; rfl
  | cons t ts ih =>
    intro h
    have ht := h t (by simp)
    simp only [lastTokenSquares, ht, Bool.false_eq_true, ite_false]
    exact ih (fun u hu => h u (by simp [hu]))

/-- The string order is total. -/
lemma strLe_total (a : Str) : ∀ b : Str, strLe a b = true ∨ strLe b a = true := by
  induction a with
  | nil => intro b; left; rfl
  | cons x xs ih =>
    intro b
    cases b with
    | nil => right; rfl
    | cons y ys =>
      rcases Nat.lt_trichotomy x.toNat y.toNat with h | h | h
      · left; simp [strLe, h]
      · rcases ih ys with h2 | h2
        · left; simp [strLe, h, h2]
        · right
          have hyx : decide (y.toNat = x.toNat) = true := by simp [h.symm]
          simp [strLe, hyx, h2]
      · right; simp [strLe, h]

/-- Unfolding equation for `sortStrs` on a cons cell. -/
lemma sortStrs_cons (a : Str) (l : List Str) :
    sortStrs (a :: l) = insertSorted a (sortStrs l) := rfl

/-- Insertion preserves the element pool. -/
lemma mem_insertSorted {x y : Str} : ∀ {l : List Str},
    (y ∈ insertSorted x l ↔ y = x ∨ y ∈ l) := by
  intro l
  induction l with
  | nil => simp [insertSorted]
  | cons z zs ih =>
    by_cases h : strLe x z = true
    · simp [insertSorted, h]
    · simp only [insertSorted, h, Bool.false_eq_true, ite_false, List.mem_cons, ih]
      tauto

/-- Sorting preserves the element pool. -/
lemma mem_sortStrs {y : Str} : ∀ {l : List Str}, (y ∈ sortStrs l ↔ y ∈ l) := by
  intro l
  induction l with
  | nil => simp [sortStrs]
  | cons a as ih =>
    rw [sortStrs_cons]
    simp [mem_insertSorted, ih]

/-- Inserting into a sorted list keeps it sorted. -/
lemma isSortedStr_insertSorted (x : Str) :
    ∀ l : List Str, isSortedStr l = true → isSortedStr (insertSorted x l) = true := by
  intro l
  induction l with
  | nil => intro _; rfl
  | cons y ys ih =>
    intro h
    by_cases hxy : strLe x y = true
    · simp only [insertSorted, hxy, ite_true]
      simp [isSortedStr, hxy, h]
    · have hyx : strLe y x = true := (strLe_total x y).resolve_left (by simp [hxy])
      have hys : isSortedStr ys = true := by
        cases ys with
        | nil => rfl
        | cons z zs => simp [isSortedStr] at h; exact h.2
      have hi := ih hys
      simp only [insertSorted, hxy, Bool.false_eq_true, ite_false]
      cases ys with
      | nil => simp [insertSorted, isSortedStr, hyx]
      | cons z zs =>
        have hyz : strLe y z = true := by simp [isSortedStr] at h; exact h.1
        by_cases hxz : strLe x z = true
        · rw [show insertSorted x (z :: zs) = x :: z :: zs by simp [insertSorted, hxz]]
          rw [show insertSorted x (z :: zs) = x :: z :: zs by simp [insertSorted, hxz]] at hi
          simp [isSortedStr, hyx]
          simp [isSortedStr] at hi
          exact hi
        · rw [show insertSorted x (z :: zs) = z :: insertSorted x zs by
            simp [insertSorted, hxz]]
          rw [show insertSorted x (z :: zs) = z :: insertSorted x zs by
            simp [insertSorted, hxz]] at hi
          cases hzz : insertSorted x zs with
          | nil => simp [isSortedStr, hyz]
          | cons w ws =>
            rw [hzz] at hi
            simp [isSortedStr] at hi ⊢
            exact ⟨hyz, hi⟩

/-- The output of `sortStrs` is sorted. -/
lemma isSortedStr_sortStrs : ∀ l : List Str, isSortedStr (sortStrs l) = true := by
  intro l
  induction l with
  | nil => rfl
  | cons a as ih =>
    rw [sortStrs_cons]
    exact isSortedStr_insertSorted a _ ih

/-- C10: the snapshot parser is total — for every input string
`_parse_positions` returns a snapshot, its exception branch returning `None`
is unreachable, and hence the parse-failure branch of `process_move` is never
taken. -/
theorem claim_C10_parser_total (txt : Str) : (parsePositions txt).isSome = true := by
  rw [parsePositions_characterization]
  rfl

/-- C8 (amended): each colour's result is determined by the LAST token of
that colour — a later `white:`/`black:` token overwrites the squares of an
earlier one instead of being unioned with it — and tokens not matching
either shape are ignored.  The result lists are the valid-square filter of
that last token's squares, sorted. -/
theorem claim_C8_last_token_overwrites (txt : Str) :
    parsePositions txt = some
      { white := sortStrs ((lastTokenSquares ("white:".data) [] (tokensOf txt)).filter
          (fun sq => decide (sq ∈ validSquares)))
        black := sortStrs ((lastTokenSquares ("black:".data) [] (tokensOf txt)).filter
          (fun sq => decide (sq ∈ validSquares))) } :=
  parsePositions_characterization txt

/-- C8 counterexample: with two `white:` tokens the first one's square `a1`
is absent from the result, so the result is not the union of the tokens'
squares. -/
theorem claim_C8_counterexample :
    parsePositions ("white:a1 white:b2".data) =
      some { white := ["b2".data], black := [] } ∧
    ("a1".data : Str) ∉ (["b2".data] : List Str) := by
  decide

/-- C9: every square in the parser's output is one of the 64 legal
coordinates (invalid entries are silently dropped, the parse still
succeeds), both output lists are sorted, and an input with no recognisable
`white:`/`black:` token yields the empty snapshot rather than a failure. -/
theorem claim_C9_validation_sorting_empty (txt : Str) (p : Snapshot)
    (hp : parsePositions txt = some p) :
    (∀ sq ∈ p.white, sq ∈ validSquares) ∧ (∀ sq ∈ p.black, sq ∈ validSquares) ∧
    isSortedStr p.white = true ∧ isSortedStr p.black = true ∧
    ((∀ t ∈ tokensOf txt, startsWithStr (stripStr t) ("white:".data) = false ∧
        startsWithStr (stripStr t) ("black:".data) = false) →
      p = { white := [], black := [] }) := by
  rw [parsePositions_characterization] at hp
  have h1 := Option.some.inj hp
  have hw : p.white = sortStrs ((lastTokenSquares ("white:".data) [] (tokensOf txt)).filter
      (fun sq => decide (sq ∈ validSquares))) := by rw [← h1]
  have hbk : p.black = sortStrs ((lastTokenSquares ("black:".data) [] (tokensOf txt)).filter
      (fun sq => decide (sq ∈ validSquares))) := by rw [← h1]
  refine ⟨?_, ?_, ?_, ?_, ?_⟩
  · intro sq hsq
    rw [hw, mem_sortStrs] at hsq
    simp only [List.mem_filter, decide_eq_true_eq] at hsq
    exact hsq.2
  · intro sq hsq
    rw [hbk, mem_sortStrs] at hsq
    simp only [List.mem_filter, decide_eq_true_eq] at hsq
    exact hsq.2
  · rw [hw]; exact isSortedStr_sortStrs _
  · rw [hbk]; exact isSortedStr_sortStrs _
  · intro hnone
    have hwz := @lastTokenSquares_eq_init ("white:".data) []
      (tokensOf txt) (fun t ht => (hnone t ht).1)
    have hbz := @lastTokenSquares_eq_init ("black:".data) []
      (tokensOf txt) (fun t ht => (hnone t ht).2)
    have hpw : p.white = [] := by rw [hw, hwz]; rfl
    have hpb : p.black = [] := by rw [hbk, hbz]; rfl
    obtain ⟨w, b⟩ := p
    have h1w : w = [] := hpw
    have h1b : b = [] := hpb
    rw [h1w, h1b]

/-- C9 witness at the concrete input `white:a1,z9` (the entry `z9` is
silently dropped). -/
theorem claim_C9_witness : isSortedStr ([("a1".data : Str)]) = true :=
  (claim_C9_validation_sorting_empty ("white:a1,z9".data)
    { white := ["a1".data], black := [] } (by decide)).2.2.1

/-- C7 (amended): board-derived snapshots satisfy the at-most-one-set
invariant — provided the occupancy listing maps each square at most once, as
a dictionary does, a square on the white side is absent from the black
side.  Parser-produced snapshots, however, need not satisfy it (see the
counterexample). -/
theorem claim_C7_board_snapshot_invariant {B : Type} (rules : Rules B) (b : B)
    (hnd : ((rules.pieceList b).map Prod.fst).Nodup) :
    ∀ sq, sq ∈ (getPieceSnapshot rules b).white →
      sq ∉ (getPieceSnapshot rules b).black := by
  intro sq hw hb
  simp only [getPieceSnapshot] at hw hb
  rw [mem_sortStrs] at hw hb
  simp only [List.mem_map, List.mem_filter] at hw hb
  obtain ⟨e, ⟨he, hc⟩, hfst⟩ := hw
  obtain ⟨f, ⟨hf, hcf⟩, hffst⟩ := hb
  have hef : e = f := List.inj_on_of_nodup_map hnd he hf (by rw [hfst, hffst])
  rw [← hef, hc] at hcf
  simp at hcf

/-- C7 witness at the concrete two-piece board of `rulesA`. -/
theorem claim_C7_witness : ("a1".data : Str) ∉ (getPieceSnapshot rulesA 0).black :=
  claim_C7_board_snapshot_invariant rulesA 0 (by decide) ("a1".data) (by decide)

/-- C7 counterexample: the parser accepts an input listing `a1` under both
colours and returns a snapshot in which `a1` belongs to both sets, violating
the claimed invariant for parser-produced snapshots. -/
theorem claim_C7_counterexample :
    ("a1".data ∈ ((parsePositions ("white:a1;black:a1".data)).getD
        { white := [], black := [] }).white) ∧
    ("a1".data ∈ ((parsePositions ("white:a1;black:a1".data)).getD
        { white := [], black := [] }).black) := by
  decide

/-- C6: while the session is inactive, every submission returns the terminal
signal `Game Over` and performs no state change, so this persists until a
`start` call resets the session. -/
theorem claim_C6_inactive_terminal {B : Type} (rules : Rules B)
    (engine : B → Option Str) (st : ChessBrain B) (incoming : Str)
    (h : st.gameActive = false) :
    processMove rules engine st incoming = (st, "Game Over".data) := by
  simp [processMove, h]

/-- C6 witness at a concrete inactive session. -/
theorem claim_C6_witness :
    processMove rulesA engineA stInactive ("e2e4".data) =
      (stInactive, "Game Over".data) :=
  claim_C6_inactive_terminal rulesA engineA stInactive ("e2e4".data) (by decide)

/-- C5 (amended): a WELL-FORMED coordinate move that is illegal in the
current position returns the invalid signal with no state change; a
malformed coordinate string, by contrast, fails the coordinate-shape test
and falls through to the snapshot path, returning the empty result rather
than the invalid signal (see the counterexample). -/
theorem claim_C5_illegal_uci_invalid {B : Type} (rules : Rules B)
    (engine : B → Option Str) (st : ChessBrain B) (incoming : Str)
    (hact : st.gameActive = true)
    (huci : isUciMove incoming = true)
    (hleg : rules.moveLegal st.board (toLowerStr (stripStr incoming)) = false) :
    processMove rules engine st incoming = (st, "Invalid".data) := by
  simp [processMove, hact, huci, hleg]

/-- C5 witness: `a1a2` is well-formed but illegal on the concrete board. -/
theorem claim_C5_witness :
    processMove rulesA engineA stA ("a1a2".data) = (stA, "Invalid".data) :=
  claim_C5_illegal_uci_invalid rulesA engineA stA ("a1a2".data)
    (by decide) (by decide) (by decide)

/-- C5 counterexample: the malformed coordinate move `e2e9` (rank `9` is
outside the board) does not return the invalid signal — it is routed to the
snapshot path and yields the empty result. -/
theorem claim_C5_counterexample :
    (processMove rulesA engineA stA ("e2e9".data)).2 = [] ∧
    ("Invalid".data : Str) ≠ [] := by
  decide

/-- C4: submitting input that parses to the occupancy snapshot of the
current board (for instance the snapshot taken right after any applied move)
returns the empty result and leaves the whole session state unchanged. -/
theorem claim_C4_resubmission_idempotent {B : Type} (rules : Rules B)
    (engine : B → Option Str) (st : ChessBrain B) (incoming : Str)
    (hact : st.gameActive = true)
    (hnuci : isUciMove incoming = false)
    (hp : parsePositions incoming = some (getPieceSnapshot rules st.board)) :
    processMove rules engine st incoming = (st, []) := by
  simp [processMove, hact, hnuci, hp]

/-- C4 witness: resubmitting the concrete board's own snapshot. -/
theorem claim_C4_witness :
    processMove rulesA engineA stA ("white:a1;black:a2".data) = (stA, []) :=
  claim_C4_resubmission_idempotent rulesA engineA stA ("white:a1;black:a2".data)
    (by decide) (by decide) (by decide)

/-- C2: a parsed snapshot whose delta against the current board snapshot has
one removed square and two added squares in total, or whose total piece
count differs from the current one by more than two, makes `process_move`
return the empty result with no mutation, regardless of any sub-pattern. -/
theorem claim_C2_drastic_guard {B : Type} (rules : Rules B)
    (engine : B → Option Str) (st : ChessBrain B) (incoming : Str) (p : Snapshot)
    (hact : st.gameActive = true)
    (hnuci : isUciMove incoming = false)
    (hp : parsePositions incoming = some p)
    (hdr : ((pyDiff (getPieceSnapshot rules st.board).white p.white).length +
              (pyDiff (getPieceSnapshot rules st.board).black p.black).length = 1 ∧
            (pyDiff p.white (getPieceSnapshot rules st.board).white).length +
              (pyDiff p.black (getPieceSnapshot rules st.board).black).length = 2) ∨
          ((((getPieceSnapshot rules st.board).white.length +
              (getPieceSnapshot rules st.board).black.length : Int)) -
            ((p.white.length + p.black.length : Int))).natAbs > 2) :
    processMove rules engine st incoming = (st, []) := by
  have hdrb : isDrasticChange p (some (getPieceSnapshot rules st.board)) = true := by
    simp only [isDrasticChange]
    rcases hdr with h | h
    · rw [if_pos h]
    · by_cases hc : (pyDiff (getPieceSnapshot rules st.board).white p.white).length +
          (pyDiff (getPieceSnapshot rules st.board).black p.black).length = 1 ∧
          (pyDiff p.white (getPieceSnapshot rules st.board).white).length +
            (pyDiff p.black (getPieceSnapshot rules st.board).black).length = 2
      · rw [if_pos hc]
      · rw [if_neg hc]
        exact decide_eq_true h
  by_cases he : p = getPieceSnapshot rules st.board
  · simp [processMove, hact, hnuci, hp, he]
  · simp [processMove, hact, hnuci, hp, he, hdrb]

/-- C2 witness: one square removed and two added on the concrete board. -/
theorem claim_C2_witness :
    processMove rulesA engineA stA ("white:b1,b2;black:a2".data) = (stA, []) :=
  claim_C2_drastic_guard rulesA engineA stA ("white:b1,b2;black:a2".data)
    { white := ["b1".data, "b2".data], black := ["a2".data] }
    (by decide) (by decide) (by decide) (Or.inl (by decide))

/-- C1: for an active session and a coordinate-notation move legal in the
current position, `process_move` applies the move; assuming the engine
answers the resulting non-checkmate position with a non-empty legal reply,
the call returns that reply, and it returns the empty result only when the
applied move produced checkmate. -/
theorem claim_C1_legal_move_reply {B : Type} (rules : Rules B)
    (engine : B → Option Str) (st : ChessBrain B) (incoming : Str) (r : Str)
    (hact : st.gameActive = true)
    (huci : isUciMove incoming = true)
    (hleg : rules.moveLegal st.board (toLowerStr (stripStr incoming)) = true)
    (heng : engine (rules.push st.board (toLowerStr (stripStr incoming))) = some r)
    (hrne : r ≠ [])
    (hrleg : rules.moveLegal (rules.push st.board (toLowerStr (stripStr incoming))) r
      = true) :
    ((processMove rules engine st incoming).1.board =
      if rules.isCheckmate (rules.push st.board (toLowerStr (stripStr incoming))) = true
      then rules.push st.board (toLowerStr (stripStr incoming))
      else rules.push (rules.push st.board (toLowerStr (stripStr incoming))) r) ∧
    ((processMove rules engine st incoming).2 =
      if rules.isCheckmate (rules.push st.board (toLowerStr (stripStr incoming))) = true
      then [] else r) ∧
    ((processMove rules engine st incoming).2 = [] →
      rules.isCheckmate (rules.push st.board (toLowerStr (stripStr incoming))) = true) := by
  by_cases hcm : rules.isCheckmate (rules.push st.board (toLowerStr (stripStr incoming)))
      = true <;>
    simp [processMove, getBestMove, hact, huci, hleg, heng, hrleg, hrne, hcm]

/-- C1 witness: the legal concrete move `e2e4` is applied and the engine's
reply `e7e5` is returned. -/
theorem claim_C1_witness :
    (processMove rulesA engineA stA ("e2e4".data)).2 = "e7e5".data :=
  (claim_C1_legal_move_reply rulesA engineA stA ("e2e4".data) ("e7e5".data)
    (by decide) (by decide) (by decide) (by decide) (by decide) (by decide)).2.1

/-- C3: the four castling snapshot patterns are mapped to the castling moves
`e1g1`, `e1c1`, `e8g8`, `e8c8`; they are tested before the quiet-move and
capture patterns and take priority over them. -/
theorem claim_C3_castling_priority (newPos currentPos : Snapshot) :
    (setEqL (pyDiff currentPos.white newPos.white) ["e1".data, "h1".data] →
     setEqL (pyDiff newPos.white currentPos.white) ["g1".data, "f1".data] →
     pyDiff currentPos.black newPos.black = [] →
     pyDiff newPos.black currentPos.black = [] →
     deduceMoveFromSnapshot newPos currentPos = some ("e1g1".data)) ∧
    (setEqL (pyDiff currentPos.white newPos.white) ["e1".data, "a1".data] →
     setEqL (pyDiff newPos.white currentPos.white) ["c1".data, "d1".data] →
     pyDiff currentPos.black newPos.black = [] →
     pyDiff newPos.black currentPos.black = [] →
     deduceMoveFromSnapshot newPos currentPos = some ("e1c1".data)) ∧
    (pyDiff currentPos.white newPos.white = [] →
     pyDiff newPos.white currentPos.white = [] →
     setEqL (pyDiff currentPos.black newPos.black) ["e8".data, "h8".data] →
     setEqL (pyDiff newPos.black currentPos.black) ["g8".data, "f8".data] →
     deduceMoveFromSnapshot newPos currentPos = some ("e8g8".data)) ∧
    (pyDiff currentPos.white newPos.white = [] →
     pyDiff newPos.white currentPos.white = [] →
     setEqL (pyDiff currentPos.black newPos.black) ["e8".data, "a8".data] →
     setEqL (pyDiff newPos.black currentPos.black) ["c8".data, "d8".data] →
     deduceMoveFromSnapshot newPos currentPos = some ("e8c8".data)) := by
  refine ⟨?_, ?_, ?_, ?_⟩
  · intro h1 h2 h3 h4
    simp only [deduceMoveFromSnapshot]
    rw [if_pos ⟨h1, h2⟩]
  · intro h1 h2 h3 h4
    simp only [deduceMoveFromSnapshot]
    rw [if_neg (by
      intro hc
      exact absurd (h1.1 _ (hc.1.2 ("h1".data) (by decide))) (by decide))]
    rw [if_pos ⟨h1, h2⟩]
  · intro hw1 hw2 h3 h4
    simp only [deduceMoveFromSnapshot]
    rw [if_neg (by
      intro hc
      have hx := hc.1.2 ("e1".data) (by decide)
      rw [hw1] at hx
      exact absurd hx (by decide))]
    rw [if_neg (by
      intro hc
      have hx := hc.1.2 ("e1".data) (by decide)
      rw [hw1] at hx
      exact absurd hx (by decide))]
    rw [if_pos ⟨h3, h4⟩]
  · intro hw1 hw2 h3 h4
    simp only [deduceMoveFromSnapshot]
    rw [if_neg (by
      intro hc
      have hx := hc.1.2 ("e1".data) (by decide)
      rw [hw1] at hx
      exact absurd hx (by decide))]
    rw [if_neg (by
      intro hc
      have hx := hc.1.2 ("e1".data) (by decide)
      rw [hw1] at hx
      exact absurd hx (by decide))]
    rw [if_neg (by
      intro hc
      exact absurd (h3.1 _ (hc.1.2 ("h8".data) (by decide))) (by decide))]
    rw [if_pos ⟨h3, h4⟩]

/-- C3 witness: the white kingside castling pattern at concrete snapshots. -/
theorem claim_C3_witness :
    deduceMoveFromSnapshot { white := ["f1".data, "g1".data], black := [] }
      { white := ["e1".data, "h1".data], black := [] } = some ("e1g1".data) :=
  (claim_C3_castling_priority
    { white := ["f1".data, "g1".data], black := [] }
    { white := ["e1".data, "h1".data], black := [] }).1
    (by decide) (by decide) (by decide) (by decide)
